import Mathlib

/-!
Shallow embedding of `GeneticAlgorithm_Elitism.py`, a genetic algorithm for
the 0/1 knapsack problem, together with theorems settling the specification
claims about it.

Modelling conventions:
* a gene `'1'`/`'0'` (the source stores one-character strings) is a `Bool`;
* the knapsack `dict` mapping `0..count-1` to `(value, weight)` pairs is a
  `List (ℕ × ℕ)`; indexing a missing key (Python `KeyError`) is modelled by
  `Option`, so every operation that may raise propagates `none`;
* the float `mutation_rate` is modelled as a rational number, and Python
  `int()` truncation toward zero as `pyint`;
* the pseudo-random source is passed explicitly: a bit stream
  `bits : ℕ → Bool` for `random.choice(['0','1'])`, and an index stream
  `rnd : ℕ → ℕ` driving `random.sample` (modelled as repeatedly removing
  a stream-chosen element from the remaining pool, which realises
  "k distinct positions chosen without replacement");
* the unbounded `while` loop of `initialize_population` takes explicit fuel
  and returns `none` on exhaustion.
-/

/-- A chromosome: the gene bit vector plus the cached derived fitness and
weight, exactly the three fields the Python `Chromosome` object carries. -/
structure Chromosome where
  genes : List Bool
  fitness : ℕ
  weight : ℕ
deriving DecidableEq, Repr

/-- `Chromosome.calculate_fitness`: walk the genes positionally and add the
value of item `i` whenever gene `i` is set; a set gene with no corresponding
catalog item is a Python `KeyError`, modelled as `none`. -/
def calc_fitness : List Bool → List (ℕ × ℕ) → Option ℕ
  | [], _ => some 0
  | g :: gs, [] => if g then none else calc_fitness gs []
  | g :: gs, p :: ks => (calc_fitness gs ks).map fun r => if g then p.1 + r else r

/-- `Chromosome.total_weight`: same traversal as `calc_fitness`, summing the
weights of the selected items. -/
def total_weight : List Bool → List (ℕ × ℕ) → Option ℕ
  | [], _ => some 0
  | g :: gs, [] => if g then none else total_weight gs []
  | g :: gs, p :: ks => (total_weight gs ks).map fun r => if g then p.2 + r else r

/-- `Chromosome.__init__`: store the genes and compute the two cached
fields from them. -/
def mkChromosome (genes : List Bool) (ks : List (ℕ × ℕ)) : Option Chromosome := do
  let f ← calc_fitness genes ks
  let w ← total_weight genes ks
  pure ⟨genes, f, w⟩

/-- Reference reformulation used in theorem statements: the sum of the values
of the catalog items whose gene bit is 1. -/
def sumValues (gs : List Bool) (ks : List (ℕ × ℕ)) : ℕ :=
  (((gs.zip ks).filter fun p => p.1).map fun p => p.2.1).sum

/-- Reference reformulation used in theorem statements: the sum of the weights
of the catalog items whose gene bit is 1. -/
def sumWeights (gs : List Bool) (ks : List (ℕ × ℕ)) : ℕ :=
  (((gs.zip ks).filter fun p => p.1).map fun p => p.2.2).sum

/-- Python `int()` on a rational: truncation toward zero. -/
def pyint (q : ℚ) : ℤ := if 0 ≤ q then ⌊q⌋ else ⌈q⌉

/-- One comparison step of Python `max` with `key=lambda c: c.fitness`: keep
the current best unless a strictly fitter element appears (first maximal
element wins ties). -/
def pystep (best x : Chromosome) : Chromosome :=
  if best.fitness < x.fitness then x else best

/-- Python `max(pop, key=lambda c: c.fitness)`: first element of maximal
fitness, `none` (a `ValueError`) on the empty list. -/
def pymax : List Chromosome → Option Chromosome
  | [] => none
  | c :: cs => some (cs.foldl pystep c)

/-- `GeneticAlgorithm.selection`: take the fittest chromosome, remove it
(`list.remove` removes the first equal element), take the fittest of the
remainder, remove it too; returns the pair together with what is left of the
population (the in-place shrinking of `self.population`). -/
def selection (pop : List Chromosome) : Option (Chromosome × Chromosome × List Chromosome) := do
  let one ← pymax pop
  let rest1 := pop.erase one
  let two ← pymax rest1
  pure (one, two, rest1.erase two)

/-- `GeneticAlgorithm.crossover`: children are recombined at the hardcoded
slice index 5 (`genes[0:5] + genes[5:]`); a child exceeding the weight limit
is replaced by the corresponding parent. -/
def crossover (ks : List (ℕ × ℕ)) (limit : ℕ) (p1 p2 : Chromosome) :
    Option (Chromosome × Chromosome) := do
  let child1 ← mkChromosome (p1.genes.take 5 ++ p2.genes.drop 5) ks
  let child2 ← mkChromosome (p2.genes.take 5 ++ p1.genes.drop 5) ks
  pure (if limit < child1.weight then p1 else child1,
        if limit < child2.weight then p2 else child2)

/-- One iteration of the `for i in numbers` loop of
`GeneticAlgorithm.mutation`: flip gene `i`, recompute weight and fitness,
and if the weight limit is exceeded revert the flip and recompute again. -/
def mutate_step (ks : List (ℕ × ℕ)) (limit : ℕ) (c : Chromosome) (i : ℕ) :
    Option Chromosome := do
  let orig := c.genes.getD i false
  let flipped := c.genes.set i (!orig)
  let w ← total_weight flipped ks
  let f ← calc_fitness flipped ks
  if limit < w then
    let reverted := flipped.set i orig
    let w2 ← total_weight reverted ks
    let f2 ← calc_fitness reverted ks
    pure ⟨reverted, f2, w2⟩
  else
    pure ⟨flipped, f, w⟩

/-- Model of `random.sample`'s draw: `k` times, remove the element of the
remaining pool chosen by the stream and emit it. -/
def draw (rnd : ℕ → ℕ) : ℕ → List ℕ → ℕ → List ℕ
  | 0, _, _ => []
  | k + 1, pool, t =>
    if pool.isEmpty then []
    else
      let x := pool.getD (rnd t % pool.length) 0
      x :: draw rnd k (pool.erase x) (t + 1)

/-- `random.sample(range(n), k)`: `k` distinct members of `range n`;
`ValueError` (`none`) when `k > n`. -/
def sample (n k : ℕ) (rnd : ℕ → ℕ) : Option (List ℕ) :=
  if k ≤ n then some (draw rnd k (List.range n) 0) else none

/-- `GeneticAlgorithm.mutation`: flip `int(mutation_rate * len(genes))`
distinct sampled positions, reverting any flip that breaks feasibility. -/
def ga_mutation (ks : List (ℕ × ℕ)) (limit : ℕ) (r : ℚ) (c : Chromosome)
    (rnd : ℕ → ℕ) : Option Chromosome := do
  let number := (pyint (r * c.genes.length)).toNat
  let numbers ← sample c.genes.length number rnd
  numbers.foldlM (mutate_step ks limit) c

/-- The `while len(population) < self.population_size` loop of
`initialize_population`: attempt `t` draws ten gene bits (the source
hardcodes `range(10)`), builds the chromosome, and keeps it only when its
weight is within the limit.  Fuel models the unbounded loop. -/
def init_loop (ks : List (ℕ × ℕ)) (limit psize : ℕ) (bits : ℕ → Bool) :
    ℕ → List Chromosome → ℕ → Option (List Chromosome)
  | 0, acc, _ => if psize ≤ acc.length then some acc else none
  | fuel + 1, acc, t =>
    if psize ≤ acc.length then some acc
    else do
      let member ← mkChromosome ((List.range 10).map fun j => bits (10 * t + j)) ks
      if member.weight ≤ limit then init_loop ks limit psize bits fuel (acc ++ [member]) (t + 1)
      else init_loop ks limit psize bits fuel acc (t + 1)

/-- `GeneticAlgorithm.initialize_population`. -/
def initialize_population (ks : List (ℕ × ℕ)) (limit psize : ℕ) (bits : ℕ → Bool)
    (fuel : ℕ) : Option (List Chromosome) :=
  init_loop ks limit psize bits fuel [] 0

/-- The engine state stored by `GeneticAlgorithm.__init__`: the four
configuration fields plus the freshly initialized population.  No field is
validated. -/
structure GAState where
  weight_limit : ℕ
  knapsack : List (ℕ × ℕ)
  population_size : ℕ
  mutation_rate : ℚ
  population : List Chromosome
deriving DecidableEq, Repr

/-- `GeneticAlgorithm.__init__`: store the parameters unchecked and build the
initial population. -/
def GeneticAlgorithm_init (limit : ℕ) (ks : List (ℕ × ℕ)) (psize : ℕ) (r : ℚ)
    (bits : ℕ → Bool) (fuel : ℕ) : Option GAState :=
  (initialize_population ks limit psize bits fuel).map fun pop =>
    ⟨limit, ks, psize, r, pop⟩

/-- The `for _ in range(self.population_size // 2)` loop of
`GeneticAlgorithm.evolve`: select two elites (shrinking the current
population), cross them, mutate both children, and append them to the
next-generation buffer.  `t` indexes the randomness used by the two
mutation calls of each iteration. -/
def evolve_loop (ks : List (ℕ × ℕ)) (limit : ℕ) (r : ℚ) (rnd : ℕ → ℕ → ℕ) :
    ℕ → List Chromosome → List Chromosome → ℕ → Option (List Chromosome)
  | 0, _, acc, _ => some acc
  | k + 1, pop, acc, t => do
    let s ← selection pop
    let cs ← crossover ks limit s.1 s.2.1
    let c1m ← ga_mutation ks limit r cs.1 (rnd t)
    let c2m ← ga_mutation ks limit r cs.2 (rnd (t + 1))
    evolve_loop ks limit r rnd k s.2.2 (acc ++ [c1m, c2m]) (t + 2)

/-- `GeneticAlgorithm.evolve`: run the loop `population_size // 2` times and
replace the population wholesale with the buffer. -/
def evolve (ks : List (ℕ × ℕ)) (limit : ℕ) (r : ℚ) (rnd : ℕ → ℕ → ℕ)
    (psize : ℕ) (pop : List Chromosome) : Option (List Chromosome) :=
  evolve_loop ks limit r rnd (psize / 2) pop [] 0

/-- `GeneticAlgorithm.get_solution`: the fittest chromosome of the current
population (Python `max`, first of maximal fitness). -/
def get_solution (pop : List Chromosome) : Option Chromosome := pymax pop

/-- The invariant every chromosome observable in a population satisfies: the
cached fitness and weight are exactly what recomputation from the current
genes yields, the weight is within the limit, and the genes do not outrun
the catalog. -/
abbrev GoodChrom (ks : List (ℕ × ℕ)) (limit : ℕ) (c : Chromosome) : Prop :=
  calc_fitness c.genes ks = some c.fitness ∧
  total_weight c.genes ks = some c.weight ∧
  c.weight ≤ limit ∧
  c.genes.length ≤ ks.length

/-- `evolve`'s generation loop specialised to mutation rate zero: mutation is
the identity there, so the loop only selects and crosses.  Used to evaluate
zero-rate runs without rational arithmetic. -/
def evolve0_loop (ks : List (ℕ × ℕ)) (limit : ℕ) :
    ℕ → List Chromosome → List Chromosome → Option (List Chromosome)
  | 0, _, acc => some acc
  | k + 1, pop, acc => do
    let s ← selection pop
    let cs ← crossover ks limit s.1 s.2.1
    evolve0_loop ks limit k s.2.2 (acc ++ [cs.1, cs.2])

/-- Constant stream used to instantiate the mutation randomness of `evolve`. -/
def rndZ : ℕ → ℕ → ℕ := fun _ _ => 0

/-- Constant stream used to instantiate `random.sample`. -/
def rnd0 : ℕ → ℕ := fun _ => 0

/-- All-zero bit stream for population initialization. -/
def bits0 : ℕ → Bool := fun _ => false

/-- Two-item test catalog, each item of value 1 and weight 1. -/
def ks2w : List (ℕ × ℕ) := [(1, 1), (1, 1)]

/-- Test chromosome selecting only the first of the two items. -/
def p1w : Chromosome := ⟨[true, false], 1, 1⟩

/-- Test chromosome selecting only the second of the two items. -/
def p2w : Chromosome := ⟨[false, true], 1, 1⟩

/-- Test chromosome selecting neither of the two items. -/
def zc2 : Chromosome := ⟨[false, false], 0, 0⟩

/-- Four-item test catalog for the initialization length bug. -/
def ksC6 : List (ℕ × ℕ) := [(1, 1), (1, 1), (1, 1), (1, 1)]

/-- Four-item zero-weight test catalog for the crossover split-point claim. -/
def ksC3 : List (ℕ × ℕ) := [(1, 0), (1, 0), (1, 0), (1, 0)]

/-- Four-gene parent selecting no item. -/
def pA3 : Chromosome := ⟨[false, false, false, false], 0, 0⟩

/-- Four-gene parent selecting every item. -/
def pB3 : Chromosome := ⟨[true, true, true, true], 4, 0⟩

/-- All-zero chromosome of gene length ten. -/
def zc10 : Chromosome := ⟨List.replicate 10 false, 0, 0⟩

/-- Ten-item catalog where items 0 and 9 together exceed the limit 3. -/
def ksX3 : List (ℕ × ℕ) :=
  [(5, 2), (0, 0), (0, 0), (0, 0), (0, 0), (0, 0), (0, 0), (0, 0), (0, 0), (4, 2)]

/-- Chromosome selecting only item 0 of `ksX3`. -/
def pX3 : Chromosome :=
  ⟨[true, false, false, false, false, false, false, false, false, false], 5, 2⟩

/-- Chromosome selecting only item 9 of `ksX3`. -/
def pY3 : Chromosome :=
  ⟨[false, false, false, false, false, false, false, false, false, true], 4, 2⟩

/-- Ten-item zero-weight catalog whose value mass sits on items 0 and 9. -/
def ksC5 : List (ℕ × ℕ) :=
  [(60, 0), (0, 0), (0, 0), (0, 0), (0, 0), (0, 0), (0, 0), (0, 0), (0, 0), (60, 0)]

/-- Chromosome selecting items 0 and 9 of `ksC5`, fitness 120. -/
def bigC5 : Chromosome :=
  ⟨[true, false, false, false, false, false, false, false, false, true], 120, 0⟩

/-- Ten-item catalog for the elitism fallback witness: items 0 and 9 weigh 6
each against limit 6, so their recombination is infeasible. -/
def ksW5 : List (ℕ × ℕ) :=
  [(10, 6), (0, 0), (0, 0), (0, 0), (0, 0), (0, 0), (0, 0), (0, 0), (0, 0), (5, 6)]

/-- Chromosome selecting only item 0 of `ksW5`. -/
def aW5 : Chromosome :=
  ⟨[true, false, false, false, false, false, false, false, false, false], 10, 6⟩

/-- Chromosome selecting only item 9 of `ksW5`. -/
def bW5 : Chromosome :=
  ⟨[false, false, false, false, false, false, false, false, false, true], 5, 6⟩

/-- The infeasible recombination of `aW5` and `bW5`: items 0 and 9, weight 12. -/
def dW5 : Chromosome :=
  ⟨[true, false, false, false, false, false, false, false, false, true], 15, 12⟩

lemma sumValues_nil_right (gs : List Bool) : sumValues gs [] = 0 := by
  simp [sumValues]

lemma sumWeights_nil_right (gs : List Bool) : sumWeights gs [] = 0 := by
  simp [sumWeights]

lemma sumValues_cons_cons (g : Bool) (gs : List Bool) (p : ℕ × ℕ) (ks : List (ℕ × ℕ)) :
    sumValues (g :: gs) (p :: ks) = if g then p.1 + sumValues gs ks else sumValues gs ks := by
  by_cases hg : g <;> simp [sumValues, List.zip_cons_cons, List.filter_cons, hg]

lemma sumWeights_cons_cons (g : Bool) (gs : List Bool) (p : ℕ × ℕ) (ks : List (ℕ × ℕ)) :
    sumWeights (g :: gs) (p :: ks) = if g then p.2 + sumWeights gs ks else sumWeights gs ks := by
  by_cases hg : g <;> simp [sumWeights, List.zip_cons_cons, List.filter_cons, hg]

lemma calc_fitness_eq_sum : ∀ (gs : List Bool) (ks : List (ℕ × ℕ)) {f : ℕ},
    calc_fitness gs ks = some f → f = sumValues gs ks := by
  intro gs
  induction gs with
  | nil =>
    intro ks f h
    simp [calc_fitness] at h
    simp [sumValues, h.symm]
  | cons g gs ih =>
    intro ks f h
    cases ks with
    | nil =>
      by_cases hg : g
      · simp [calc_fitness, hg] at h
      · simp [calc_fitness, hg] at h
        have hf := ih [] h
        simp [sumValues_nil_right] at hf ⊢
        exact hf
    | cons p ks =>
      simp [calc_fitness] at h
      obtain ⟨r, hr, hf⟩ := h
      have := ih ks hr
      subst this
      rw [sumValues_cons_cons, ← hf]

lemma total_weight_eq_sum : ∀ (gs : List Bool) (ks : List (ℕ × ℕ)) {w : ℕ},
    total_weight gs ks = some w → w = sumWeights gs ks := by
  intro gs
  induction gs with
  | nil =>
    intro ks w h
    simp [total_weight] at h
    simp [sumWeights, h.symm]
  | cons g gs ih =>
    intro ks w h
    cases ks with
    | nil =>
      by_cases hg : g
      · simp [total_weight, hg] at h
      · simp [total_weight, hg] at h
        have hw := ih [] h
        simp [sumWeights_nil_right] at hw ⊢
        exact hw
    | cons p ks =>
      simp [total_weight] at h
      obtain ⟨r, hr, hw⟩ := h
      have := ih ks hr
      subst this
      rw [sumWeights_cons_cons, ← hw]

lemma calc_fitness_of_le : ∀ (gs : List Bool) (ks : List (ℕ × ℕ)),
    gs.length ≤ ks.length → calc_fitness gs ks = some (sumValues gs ks) := by
  intro gs
  induction gs with
  | nil => intro ks _; simp [calc_fitness, sumValues]
  | cons g gs ih =>
    intro ks h
    cases ks with
    | nil => simp at h
    | cons p ks =>
      simp at h
      simp [calc_fitness, ih ks h, sumValues_cons_cons]

lemma total_weight_of_le : ∀ (gs : List Bool) (ks : List (ℕ × ℕ)),
    gs.length ≤ ks.length → total_weight gs ks = some (sumWeights gs ks) := by
  intro gs
  induction gs with
  | nil => intro ks _; simp [total_weight, sumWeights]
  | cons g gs ih =>
    intro ks h
    cases ks with
    | nil => simp at h
    | cons p ks =>
      simp at h
      simp [total_weight, ih ks h, sumWeights_cons_cons]

lemma mkChromosome_spec {genes : List Bool} {ks : List (ℕ × ℕ)} {c : Chromosome}
    (h : mkChromosome genes ks = some c) :
    c.genes = genes ∧ calc_fitness genes ks = some c.fitness ∧
      total_weight genes ks = some c.weight := by
  cases hf : calc_fitness genes ks with
  | none => simp [mkChromosome, hf] at h
  | some f =>
    cases hw : total_weight genes ks with
    | none => simp [mkChromosome, hf, hw] at h
    | some w =>
      simp [mkChromosome, hf, hw] at h
      subst h
      exact ⟨rfl, rfl, rfl⟩

lemma mkChromosome_of_le {genes : List Bool} {ks : List (ℕ × ℕ)}
    (h : genes.length ≤ ks.length) :
    mkChromosome genes ks = some ⟨genes, sumValues genes ks, sumWeights genes ks⟩ := by
  simp [mkChromosome, calc_fitness_of_le genes ks h, total_weight_of_le genes ks h]

lemma list_set_getD_self {α : Type} : ∀ (l : List α) (i : ℕ) (d : α),
    l.set i (l.getD i d) = l := by
  intro l
  induction l with
  | nil => intro i d; rfl
  | cons a l ih =>
    intro i d
    cases i with
    | zero => simp [List.getD]
    | succ n =>
      show a :: l.set n (l.getD n d) = a :: l
      rw [ih n d]

lemma pystep_left_le (b x : Chromosome) : b.fitness ≤ (pystep b x).fitness := by
  unfold pystep
  split <;> omega

lemma pystep_right_le (b x : Chromosome) : x.fitness ≤ (pystep b x).fitness := by
  unfold pystep
  split <;> omega

lemma pystep_mem (b x : Chromosome) : pystep b x = b ∨ pystep b x = x := by
  unfold pystep
  split
  · right; rfl
  · left; rfl

lemma foldl_pystep_spec : ∀ (cs : List Chromosome) (b : Chromosome),
    (List.foldl pystep b cs = b ∨ List.foldl pystep b cs ∈ cs) ∧
    b.fitness ≤ (List.foldl pystep b cs).fitness ∧
    ∀ c ∈ cs, c.fitness ≤ (List.foldl pystep b cs).fitness := by
  intro cs
  induction cs with
  | nil => intro b; simp
  | cons x cs ih =>
    intro b
    obtain ⟨h1, h2, h3⟩ := ih (pystep b x)
    rw [List.foldl_cons]
    refine ⟨?_, le_trans (pystep_left_le b x) h2, ?_⟩
    · rcases h1 with h | h
      · rw [h]
        rcases pystep_mem b x with h' | h'
        · left; exact h'
        · right; rw [h']; exact List.mem_cons_self x cs
      · right; exact List.mem_cons_of_mem x h
    · intro c hc
      rcases List.mem_cons.mp hc with h | h
      · subst h; exact le_trans (pystep_right_le b c) h2
      · exact h3 c h

lemma pymax_spec {pop : List Chromosome} (h : pop ≠ []) :
    ∃ m, pymax pop = some m ∧ m ∈ pop ∧ ∀ c ∈ pop, c.fitness ≤ m.fitness := by
  cases pop with
  | nil => exact absurd rfl h
  | cons c cs =>
    obtain ⟨h1, h2, h3⟩ := foldl_pystep_spec cs c
    refine ⟨List.foldl pystep c cs, rfl, ?_, ?_⟩
    · rcases h1 with h' | h'
      · rw [h']; exact List.mem_cons_self c cs
      · exact List.mem_cons_of_mem c h'
    · intro d hd
      rcases List.mem_cons.mp hd with h' | h'
      · subst h'; exact h2
      · exact h3 d h'

lemma selection_spec {pop : List Chromosome} (h : 2 ≤ pop.length) :
    ∃ p1 p2 rest, selection pop = some (p1, p2, rest) ∧ p1 ∈ pop ∧
      (∀ c ∈ pop, c.fitness ≤ p1.fitness) ∧ p2 ∈ pop.erase p1 ∧
      (∀ c ∈ pop.erase p1, c.fitness ≤ p2.fitness) ∧
      rest = (pop.erase p1).erase p2 ∧ rest.length + 2 = pop.length := by
  have hne : pop ≠ [] := by
    intro e
    rw [e] at h
    simp at h
  obtain ⟨p1, hm1, hmem1, hmax1⟩ := pymax_spec hne
  have hlen1 : (pop.erase p1).length = pop.length - 1 := List.length_erase_of_mem hmem1
  have hne2 : pop.erase p1 ≠ [] := by
    have : 0 < (pop.erase p1).length := by omega
    exact (List.length_pos).mp this
  obtain ⟨p2, hm2, hmem2, hmax2⟩ := pymax_spec hne2
  have hlen2 : ((pop.erase p1).erase p2).length = (pop.erase p1).length - 1 :=
    List.length_erase_of_mem hmem2
  refine ⟨p1, p2, (pop.erase p1).erase p2, ?_, hmem1, hmax1, hmem2, hmax2, rfl, by omega⟩
  simp [selection, hm1, hm2]

lemma mutate_step_spec {ks : List (ℕ × ℕ)} {limit : ℕ} {c : Chromosome} (i : ℕ)
    (hf : calc_fitness c.genes ks = some c.fitness)
    (hw : total_weight c.genes ks = some c.weight)
    (hle : c.weight ≤ limit) (hlen : c.genes.length ≤ ks.length) :
    ∃ c', mutate_step ks limit c i = some c' ∧
      calc_fitness c'.genes ks = some c'.fitness ∧
      total_weight c'.genes ks = some c'.weight ∧
      c'.weight ≤ limit ∧ c'.genes.length = c.genes.length := by
  have hlenf : (c.genes.set i !c.genes.getD i false).length = c.genes.length :=
    List.length_set c.genes i _
  have hwf : total_weight (c.genes.set i !c.genes.getD i false) ks =
      some (sumWeights (c.genes.set i !c.genes.getD i false) ks) :=
    total_weight_of_le _ _ (by omega)
  have hff : calc_fitness (c.genes.set i !c.genes.getD i false) ks =
      some (sumValues (c.genes.set i !c.genes.getD i false) ks) :=
    calc_fitness_of_le _ _ (by omega)
  have hrev : (c.genes.set i !c.genes.getD i false).set i (c.genes.getD i false) = c.genes := by
    rw [List.set_set, list_set_getD_self]
  by_cases hcmp : limit < sumWeights (c.genes.set i !c.genes.getD i false) ks
  · refine ⟨c, ?_, hf, hw, hle, rfl⟩
    simp only [mutate_step, Option.bind_eq_bind, hwf, Option.some_bind, hff, hcmp, if_true,
      hrev, hw, hf, Option.pure_def]
  · refine ⟨⟨c.genes.set i !c.genes.getD i false,
        sumValues (c.genes.set i !c.genes.getD i false) ks,
        sumWeights (c.genes.set i !c.genes.getD i false) ks⟩, ?_, ?_, ?_, ?_, hlenf⟩
    · simp only [mutate_step, Option.bind_eq_bind, hwf, Option.some_bind, hff, hcmp, if_false,
        Option.pure_def]
    · simpa using hff
    · simpa using hwf
    · exact not_lt.mp hcmp

lemma foldlM_mutate_spec {ks : List (ℕ × ℕ)} {limit : ℕ} : ∀ (is : List ℕ) (c : Chromosome),
    calc_fitness c.genes ks = some c.fitness →
    total_weight c.genes ks = some c.weight →
    c.weight ≤ limit → c.genes.length ≤ ks.length →
    ∃ c', List.foldlM (mutate_step ks limit) c is = some c' ∧
      calc_fitness c'.genes ks = some c'.fitness ∧
      total_weight c'.genes ks = some c'.weight ∧
      c'.weight ≤ limit ∧ c'.genes.length = c.genes.length := by
  intro is
  induction is with
  | nil =>
    intro c h1 h2 h3 _
    exact ⟨c, by simp, h1, h2, h3, rfl⟩
  | cons i is ih =>
    intro c h1 h2 h3 h4
    obtain ⟨c1, hstep, hf1, hw1, hle1, hlen1⟩ := mutate_step_spec i h1 h2 h3 h4
    obtain ⟨c', hrest, hf2, hw2, hle2, hlen2⟩ := ih c1 hf1 hw1 hle1 (by omega)
    refine ⟨c', ?_, hf2, hw2, hle2, by omega⟩
    rw [List.foldlM_cons, hstep]
    simpa using hrest

lemma pyint_toNat_le {r : ℚ} (hr0 : 0 ≤ r) (hr1 : r ≤ 1) (L : ℕ) :
    (pyint (r * L)).toNat ≤ L := by
  rw [pyint, if_pos (mul_nonneg hr0 (Nat.cast_nonneg L))]
  rw [Int.toNat_le]
  calc ⌊r * (L : ℚ)⌋ ≤ ⌊((L : ℕ) : ℚ)⌋ :=
        Int.floor_le_floor (mul_le_of_le_one_left (Nat.cast_nonneg L) hr1)
    _ = (L : ℤ) := Int.floor_natCast L

lemma ga_mutation_spec {ks : List (ℕ × ℕ)} {limit : ℕ} {r : ℚ} {c : Chromosome}
    (rnd : ℕ → ℕ) (hr0 : 0 ≤ r) (hr1 : r ≤ 1)
    (h1 : calc_fitness c.genes ks = some c.fitness)
    (h2 : total_weight c.genes ks = some c.weight)
    (h3 : c.weight ≤ limit) (h4 : c.genes.length ≤ ks.length) :
    ∃ c', ga_mutation ks limit r c rnd = some c' ∧
      calc_fitness c'.genes ks = some c'.fitness ∧
      total_weight c'.genes ks = some c'.weight ∧
      c'.weight ≤ limit ∧ c'.genes.length = c.genes.length := by
  have hnum : (pyint (r * c.genes.length)).toNat ≤ c.genes.length := pyint_toNat_le hr0 hr1 _
  obtain ⟨c', hfold, hf, hw, hle, hlen⟩ :=
    foldlM_mutate_spec (draw rnd ((pyint (r * c.genes.length)).toNat)
      (List.range c.genes.length) 0) c h1 h2 h3 h4
  refine ⟨c', ?_, hf, hw, hle, hlen⟩
  simp only [ga_mutation, sample, if_pos hnum, Option.some_bind]
  exact hfold

lemma ga_mutation_zero (ks : List (ℕ × ℕ)) (limit : ℕ) (c : Chromosome) (rnd : ℕ → ℕ) :
    ga_mutation ks limit 0 c rnd = some c := by
  simp [ga_mutation, pyint, sample, draw]

lemma draw_length (rnd : ℕ → ℕ) : ∀ (k : ℕ) (pool : List ℕ) (t : ℕ),
    k ≤ pool.length → (draw rnd k pool t).length = k := by
  intro k
  induction k with
  | zero => intro pool t _; rfl
  | succ k ih =>
    intro pool t h
    have hpos : 0 < pool.length := by omega
    have hne : pool.isEmpty = false := by
      cases pool
      · simp at hpos
      · rfl
    have hidx : rnd t % pool.length < pool.length := Nat.mod_lt _ hpos
    have hmem : pool.getD (rnd t % pool.length) 0 ∈ pool := by
      rw [List.getD_eq_getElem pool 0 hidx]
      exact List.getElem_mem hidx
    have herase : (pool.erase (pool.getD (rnd t % pool.length) 0)).length = pool.length - 1 :=
      List.length_erase_of_mem hmem
    simp only [draw, hne, Bool.false_eq_true, if_false, List.length_cons]
    rw [ih _ (t + 1) (by omega)]

lemma draw_nodup_subset (rnd : ℕ → ℕ) : ∀ (k : ℕ) (pool : List ℕ) (t : ℕ),
    pool.Nodup → (draw rnd k pool t).Nodup ∧ ∀ x ∈ draw rnd k pool t, x ∈ pool := by
  intro k
  induction k with
  | zero => intro pool t _; simp [draw]
  | succ k ih =>
    intro pool t hnd
    by_cases hemp : pool.isEmpty
    · simp [draw, hemp]
    · have hne : pool.isEmpty = false := by simpa using hemp
      obtain ⟨htlnd, htlsub⟩ :=
        ih (pool.erase (pool.getD (rnd t % pool.length) 0)) (t + 1) (hnd.erase _)
      have hpos : 0 < pool.length := by
        cases pool
        · simp at hne
        · simp
      have hmem : pool.getD (rnd t % pool.length) 0 ∈ pool := by
        rw [List.getD_eq_getElem pool 0 (Nat.mod_lt _ hpos)]
        exact List.getElem_mem (Nat.mod_lt _ hpos)
      constructor
      · simp only [draw, hne, Bool.false_eq_true, if_false, List.nodup_cons]
        refine ⟨?_, htlnd⟩
        intro hx
        exact hnd.not_mem_erase (htlsub _ hx)
      · intro x hx
        simp only [draw, hne, Bool.false_eq_true, if_false, List.mem_cons] at hx
        rcases hx with hx | hx
        · rw [hx]; exact hmem
        · exact List.erase_subset _ _ (htlsub _ hx)

lemma sample_spec {n k : ℕ} (rnd : ℕ → ℕ) (h : k ≤ n) :
    ∃ ns, sample n k rnd = some ns ∧ ns.length = k ∧ ns.Nodup ∧ ∀ i ∈ ns, i < n := by
  refine ⟨draw rnd k (List.range n) 0, by simp [sample, h], ?_, ?_, ?_⟩
  · exact draw_length rnd k _ 0 (by simpa using h)
  · exact (draw_nodup_subset rnd k _ 0 (List.nodup_range n)).1
  · intro i hi
    have := (draw_nodup_subset rnd k (List.range n) 0 (List.nodup_range n)).2 i hi
    exact List.mem_range.mp this

lemma crossover_spec {ks : List (ℕ × ℕ)} {limit : ℕ} {p1 p2 : Chromosome}
    {c1 c2 : Chromosome} (h : crossover ks limit p1 p2 = some (c1, c2)) :
    ∃ d1 d2, mkChromosome (p1.genes.take 5 ++ p2.genes.drop 5) ks = some d1 ∧
      mkChromosome (p2.genes.take 5 ++ p1.genes.drop 5) ks = some d2 ∧
      d1.genes = p1.genes.take 5 ++ p2.genes.drop 5 ∧
      d2.genes = p2.genes.take 5 ++ p1.genes.drop 5 ∧
      c1 = (if limit < d1.weight then p1 else d1) ∧
      c2 = (if limit < d2.weight then p2 else d2) := by
  cases h1 : mkChromosome (p1.genes.take 5 ++ p2.genes.drop 5) ks with
  | none => simp [crossover, h1] at h
  | some d1 =>
    cases h2 : mkChromosome (p2.genes.take 5 ++ p1.genes.drop 5) ks with
    | none => simp [crossover, h1, h2] at h
    | some d2 =>
      simp only [crossover, Option.bind_eq_bind, h1, Option.some_bind, h2, Option.pure_def,
        Option.some.injEq, Prod.mk.injEq] at h
      exact ⟨d1, d2, rfl, rfl, (mkChromosome_spec h1).1, (mkChromosome_spec h2).1,
        h.1.symm, h.2.symm⟩

lemma take_append_drop_length_le {a b : List Bool} {n : ℕ}
    (ha : a.length ≤ n) (hb : b.length ≤ n) : (a.take 5 ++ b.drop 5).length ≤ n := by
  simp only [List.length_append, List.length_take, List.length_drop]
  omega

lemma crossover_good {ks : List (ℕ × ℕ)} {limit : ℕ} {p1 p2 : Chromosome}
    (g1 : GoodChrom ks limit p1) (g2 : GoodChrom ks limit p2) :
    ∃ c1 c2, crossover ks limit p1 p2 = some (c1, c2) ∧
      GoodChrom ks limit c1 ∧ GoodChrom ks limit c2 := by
  have hl1 : (p1.genes.take 5 ++ p2.genes.drop 5).length ≤ ks.length :=
    take_append_drop_length_le g1.2.2.2 g2.2.2.2
  have hl2 : (p2.genes.take 5 ++ p1.genes.drop 5).length ≤ ks.length :=
    take_append_drop_length_le g2.2.2.2 g1.2.2.2
  have h1 := mkChromosome_of_le hl1
  have h2 := mkChromosome_of_le hl2
  refine ⟨if limit < sumWeights (p1.genes.take 5 ++ p2.genes.drop 5) ks then p1
      else ⟨p1.genes.take 5 ++ p2.genes.drop 5,
        sumValues (p1.genes.take 5 ++ p2.genes.drop 5) ks,
        sumWeights (p1.genes.take 5 ++ p2.genes.drop 5) ks⟩,
    if limit < sumWeights (p2.genes.take 5 ++ p1.genes.drop 5) ks then p2
      else ⟨p2.genes.take 5 ++ p1.genes.drop 5,
        sumValues (p2.genes.take 5 ++ p1.genes.drop 5) ks,
        sumWeights (p2.genes.take 5 ++ p1.genes.drop 5) ks⟩, ?_, ?_, ?_⟩
  · simp only [crossover, Option.bind_eq_bind, h1, Option.some_bind, h2, Option.pure_def]
  · by_cases hc : limit < sumWeights (p1.genes.take 5 ++ p2.genes.drop 5) ks
    · simp only [if_pos hc]
      exact g1
    · simp only [if_neg hc]
      exact ⟨calc_fitness_of_le _ _ hl1, total_weight_of_le _ _ hl1, not_lt.mp hc, hl1⟩
  · by_cases hc : limit < sumWeights (p2.genes.take 5 ++ p1.genes.drop 5) ks
    · simp only [if_pos hc]
      exact g2
    · simp only [if_neg hc]
      exact ⟨calc_fitness_of_le _ _ hl2, total_weight_of_le _ _ hl2, not_lt.mp hc, hl2⟩

lemma init_loop_mem {ks : List (ℕ × ℕ)} {limit psize : ℕ} {bits : ℕ → Bool} :
    ∀ (fuel : ℕ) (acc : List Chromosome) (t : ℕ) {pop : List Chromosome},
    init_loop ks limit psize bits fuel acc t = some pop →
    ∀ c ∈ pop, c ∈ acc ∨ ∃ genes, mkChromosome genes ks = some c ∧ c.weight ≤ limit := by
  intro fuel
  induction fuel with
  | zero =>
    intro acc t pop h c hc
    simp only [init_loop] at h
    by_cases hd : psize ≤ acc.length
    · rw [if_pos hd] at h
      exact Or.inl ((Option.some.inj h) ▸ hc)
    · rw [if_neg hd] at h
      exact absurd h (by simp)
  | succ fuel ih =>
    intro acc t pop h c hc
    simp only [init_loop] at h
    by_cases hd : psize ≤ acc.length
    · rw [if_pos hd] at h
      exact Or.inl ((Option.some.inj h) ▸ hc)
    · rw [if_neg hd] at h
      cases hm : mkChromosome ((List.range 10).map fun j => bits (10 * t + j)) ks with
      | none =>
        rw [hm] at h
        simp at h
      | some member =>
        rw [hm] at h
        simp only [Option.bind_eq_bind, Option.some_bind] at h
        by_cases hw : member.weight ≤ limit
        · rw [if_pos hw] at h
          rcases ih _ _ h c hc with hacc | hex
          · rcases List.mem_append.mp hacc with h1 | h1
            · exact Or.inl h1
            · simp only [List.mem_singleton] at h1
              subst h1
              exact Or.inr ⟨_, hm, hw⟩
          · exact Or.inr hex
        · rw [if_neg hw] at h
          exact ih _ _ h c hc

lemma evolve_loop_spec {ks : List (ℕ × ℕ)} {limit : ℕ} {r : ℚ} {rnd : ℕ → ℕ → ℕ}
    (hr0 : 0 ≤ r) (hr1 : r ≤ 1) :
    ∀ (k : ℕ) (pop acc : List Chromosome) (t : ℕ),
    (∀ c ∈ pop, GoodChrom ks limit c) → (∀ c ∈ acc, GoodChrom ks limit c) →
    2 * k ≤ pop.length →
    ∃ res, evolve_loop ks limit r rnd k pop acc t = some res ∧
      res.length = acc.length + 2 * k ∧ ∀ c ∈ res, GoodChrom ks limit c := by
  intro k
  induction k with
  | zero =>
    intro pop acc t _ hacc _
    exact ⟨acc, rfl, by omega, hacc⟩
  | succ k ih =>
    intro pop acc t hpop hacc hk
    obtain ⟨p1, p2, rest, hsel, hp1, _, hp2, _, hrest, hlen⟩ :=
      selection_spec (show 2 ≤ pop.length by omega)
    have g1 : GoodChrom ks limit p1 := hpop p1 hp1
    have g2 : GoodChrom ks limit p2 := hpop p2 (List.erase_subset _ _ hp2)
    obtain ⟨c1, c2, hcr, gc1, gc2⟩ := crossover_good g1 g2
    obtain ⟨c1m, hm1, hf1, hw1, hle1, hlen1⟩ :=
      ga_mutation_spec (rnd t) hr0 hr1 gc1.1 gc1.2.1 gc1.2.2.1 gc1.2.2.2
    obtain ⟨c2m, hm2, hf2, hw2, hle2, hlen2⟩ :=
      ga_mutation_spec (rnd (t + 1)) hr0 hr1 gc2.1 gc2.2.1 gc2.2.2.1 gc2.2.2.2
    have hrest_good : ∀ c ∈ rest, GoodChrom ks limit c := by
      intro c hc
      rw [hrest] at hc
      exact hpop c (List.erase_subset _ _ (List.erase_subset _ _ hc))
    have hacc' : ∀ c ∈ acc ++ [c1m, c2m], GoodChrom ks limit c := by
      intro c hc
      rcases List.mem_append.mp hc with h1 | h1
      · exact hacc c h1
      · rcases List.mem_cons.mp h1 with h2 | h2
        · subst h2
          exact ⟨hf1, hw1, hle1, by rw [hlen1]; exact gc1.2.2.2⟩
        · simp only [List.mem_singleton] at h2
          subst h2
          exact ⟨hf2, hw2, hle2, by rw [hlen2]; exact gc2.2.2.2⟩
    obtain ⟨res, hres, hreslen, hresgood⟩ :=
      ih rest (acc ++ [c1m, c2m]) (t + 2) hrest_good hacc' (by omega)
    refine ⟨res, ?_, by simp only [List.length_append, List.length_cons,
      List.length_nil] at hreslen ⊢; omega, hresgood⟩
    simp only [evolve_loop, Option.bind_eq_bind, hsel, Option.some_bind, hcr, hm1, hm2]
    exact hres

lemma evolve_loop_acc_sub {ks : List (ℕ × ℕ)} {limit : ℕ} {r : ℚ} {rnd : ℕ → ℕ → ℕ} :
    ∀ (k : ℕ) (pop acc : List Chromosome) (t : ℕ) {res : List Chromosome},
    evolve_loop ks limit r rnd k pop acc t = some res → ∀ c ∈ acc, c ∈ res := by
  intro k
  induction k with
  | zero =>
    intro pop acc t res h c hc
    exact (Option.some.inj h) ▸ hc
  | succ k ih =>
    intro pop acc t res h c hc
    cases hsel : selection pop with
    | none =>
      simp only [evolve_loop, Option.bind_eq_bind, hsel, Option.none_bind] at h
      exact absurd h (by simp)
    | some s =>
      simp only [evolve_loop, Option.bind_eq_bind, hsel, Option.some_bind] at h
      cases hcr : crossover ks limit s.1 s.2.1 with
      | none =>
        rw [hcr] at h
        simp at h
      | some cs =>
        rw [hcr] at h
        simp only [Option.some_bind] at h
        cases hm1 : ga_mutation ks limit r cs.1 (rnd t) with
        | none =>
          rw [hm1] at h
          simp at h
        | some c1m =>
          rw [hm1] at h
          simp only [Option.some_bind] at h
          cases hm2 : ga_mutation ks limit r cs.2 (rnd (t + 1)) with
          | none =>
            rw [hm2] at h
            simp at h
          | some c2m =>
            rw [hm2] at h
            simp only [Option.some_bind] at h
            exact ih _ _ _ h c (List.mem_append_left _ hc)

lemma pymax_mem {pop : List Chromosome} {m : Chromosome} (h : pymax pop = some m) :
    m ∈ pop := by
  cases pop with
  | nil => exact absurd h (by simp [pymax])
  | cons c cs =>
    obtain ⟨h1, _, _⟩ := foldl_pystep_spec cs c
    have hm : cs.foldl pystep c = m := Option.some.inj h
    rcases h1 with h' | h'
    · rw [← hm, h']
      exact List.mem_cons_self c cs
    · rw [← hm]
      exact List.mem_cons_of_mem c h'

lemma pymax_le {pop : List Chromosome} {m : Chromosome} (h : pymax pop = some m) :
    ∀ c ∈ pop, c.fitness ≤ m.fitness := by
  cases pop with
  | nil => exact absurd h (by simp [pymax])
  | cons c cs =>
    obtain ⟨_, h2, h3⟩ := foldl_pystep_spec cs c
    have hm : cs.foldl pystep c = m := Option.some.inj h
    intro d hd
    rcases List.mem_cons.mp hd with h' | h'
    · subst h'
      rw [← hm]
      exact h2
    · rw [← hm]
      exact h3 d h'

lemma selection_eq {pop : List Chromosome} {p1 p2 : Chromosome} {rest : List Chromosome}
    (h : selection pop = some (p1, p2, rest)) :
    pymax pop = some p1 ∧ pymax (pop.erase p1) = some p2 ∧
      rest = (pop.erase p1).erase p2 := by
  cases hm1 : pymax pop with
  | none => simp [selection, hm1] at h
  | some one =>
    cases hm2 : pymax (pop.erase one) with
    | none => simp [selection, hm1, hm2] at h
    | some two =>
      simp only [selection, Option.bind_eq_bind, hm1, Option.some_bind, hm2, Option.pure_def,
        Option.some.injEq, Prod.mk.injEq] at h
      obtain ⟨e1, e2, e3⟩ := h
      subst e1
      subst e2
      exact ⟨rfl, hm2, e3.symm⟩

lemma selection_sub {pop : List Chromosome} {s : Chromosome × Chromosome × List Chromosome}
    (h : selection pop = some s) :
    s.1 ∈ pop ∧ s.2.1 ∈ pop ∧ ∀ c ∈ s.2.2, c ∈ pop := by
  obtain ⟨h1, h2, h3⟩ := selection_eq (show selection pop = some (s.1, s.2.1, s.2.2) from h)
  refine ⟨pymax_mem h1, List.erase_subset _ _ (pymax_mem h2), ?_⟩
  intro c hc
  rw [h3] at hc
  exact List.erase_subset _ _ (List.erase_subset _ _ hc)

lemma ga_mutation_preserves {ks : List (ℕ × ℕ)} {limit : ℕ} {r : ℚ} {c c' : Chromosome}
    {rnd : ℕ → ℕ} (g : GoodChrom ks limit c) (h : ga_mutation ks limit r c rnd = some c') :
    GoodChrom ks limit c' ∧ c'.genes.length = c.genes.length := by
  cases hs : sample c.genes.length ((pyint (r * c.genes.length)).toNat) rnd with
  | none =>
    simp only [ga_mutation, Option.bind_eq_bind, hs, Option.none_bind] at h
    exact absurd h (by simp)
  | some ns =>
    simp only [ga_mutation, Option.bind_eq_bind, hs, Option.some_bind] at h
    obtain ⟨c'', heq, hf, hw, hle, hlen⟩ := foldlM_mutate_spec ns c g.1 g.2.1 g.2.2.1 g.2.2.2
    have : c'' = c' := Option.some.inj (heq.symm.trans h)
    subst this
    exact ⟨⟨hf, hw, hle, by rw [hlen]; exact g.2.2.2⟩, hlen⟩

lemma crossover_preserves {ks : List (ℕ × ℕ)} {limit : ℕ} {p1 p2 c1 c2 : Chromosome}
    (g1 : GoodChrom ks limit p1) (g2 : GoodChrom ks limit p2)
    (h : crossover ks limit p1 p2 = some (c1, c2)) :
    GoodChrom ks limit c1 ∧ GoodChrom ks limit c2 := by
  obtain ⟨d1, d2, h1, h2, hg1, hg2, hc1, hc2⟩ := crossover_spec h
  have hm1 := mkChromosome_spec h1
  have hm2 := mkChromosome_spec h2
  constructor
  · rw [hc1]
    by_cases hlt : limit < d1.weight
    · simpa [hlt] using g1
    · simp only [if_neg hlt]
      refine ⟨by rw [hm1.1]; exact hm1.2.1, by rw [hm1.1]; exact hm1.2.2, not_lt.mp hlt, ?_⟩
      rw [hm1.1]
      exact take_append_drop_length_le g1.2.2.2 g2.2.2.2
  · rw [hc2]
    by_cases hlt : limit < d2.weight
    · simpa [hlt] using g2
    · simp only [if_neg hlt]
      refine ⟨by rw [hm2.1]; exact hm2.2.1, by rw [hm2.1]; exact hm2.2.2, not_lt.mp hlt, ?_⟩
      rw [hm2.1]
      exact take_append_drop_length_le g2.2.2.2 g1.2.2.2

lemma evolve_loop_preserves {ks : List (ℕ × ℕ)} {limit : ℕ} {r : ℚ} {rnd : ℕ → ℕ → ℕ} :
    ∀ (k : ℕ) (pop acc : List Chromosome) (t : ℕ) {res : List Chromosome},
    evolve_loop ks limit r rnd k pop acc t = some res →
    (∀ c ∈ pop, GoodChrom ks limit c) → (∀ c ∈ acc, GoodChrom ks limit c) →
    ∀ c ∈ res, GoodChrom ks limit c := by
  intro k
  induction k with
  | zero =>
    intro pop acc t res h _ hacc
    exact (Option.some.inj h) ▸ hacc
  | succ k ih =>
    intro pop acc t res h hpop hacc
    cases hsel : selection pop with
    | none =>
      simp only [evolve_loop, Option.bind_eq_bind, hsel, Option.none_bind] at h
      exact absurd h (by simp)
    | some s =>
      simp only [evolve_loop, Option.bind_eq_bind, hsel, Option.some_bind] at h
      obtain ⟨hs1, hs2, hs3⟩ := selection_sub hsel
      cases hcr : crossover ks limit s.1 s.2.1 with
      | none =>
        rw [hcr] at h
        simp at h
      | some cs =>
        rw [hcr] at h
        simp only [Option.some_bind] at h
        obtain ⟨gcs1, gcs2⟩ := crossover_preserves (hpop _ hs1) (hpop _ hs2)
          (show crossover ks limit s.1 s.2.1 = some (cs.1, cs.2) from hcr)
        cases hm1 : ga_mutation ks limit r cs.1 (rnd t) with
        | none =>
          rw [hm1] at h
          simp at h
        | some c1m =>
          rw [hm1] at h
          simp only [Option.some_bind] at h
          cases hm2 : ga_mutation ks limit r cs.2 (rnd (t + 1)) with
          | none =>
            rw [hm2] at h
            simp at h
          | some c2m =>
            rw [hm2] at h
            simp only [Option.some_bind] at h
            refine ih _ _ _ h (fun c hc => hpop c (hs3 c hc)) ?_
            intro c hc
            rcases List.mem_append.mp hc with h1 | h1
            · exact hacc c h1
            · rcases List.mem_cons.mp h1 with h2 | h2
              · subst h2
                exact (ga_mutation_preserves gcs1 hm1).1
              · simp only [List.mem_singleton] at h2
                subst h2
                exact (ga_mutation_preserves gcs2 hm2).1

/-- C1: Feasibility invariant: every chromosome of a population produced by
initialization has weight at most the weight limit (initialization accepts
only feasible chromosomes); crossover of feasible parents never returns an
infeasible child; mutation of a well-formed feasible chromosome returns a
feasible chromosome (every flip exceeding the capacity is reverted); and
after an evolve over a population of well-formed feasible chromosomes every
member of the new population is again within the weight limit. -/
theorem C1_feasibility_invariant :
    (∀ (ks : List (ℕ × ℕ)) (limit psize : ℕ) (bits : ℕ → Bool) (fuel : ℕ)
      (pop : List Chromosome), initialize_population ks limit psize bits fuel = some pop →
      ∀ c ∈ pop, c.weight ≤ limit) ∧
    (∀ (ks : List (ℕ × ℕ)) (limit : ℕ) (p1 p2 c1 c2 : Chromosome),
      p1.weight ≤ limit → p2.weight ≤ limit →
      crossover ks limit p1 p2 = some (c1, c2) → c1.weight ≤ limit ∧ c2.weight ≤ limit) ∧
    (∀ (ks : List (ℕ × ℕ)) (limit : ℕ) (r : ℚ) (c c' : Chromosome) (rnd : ℕ → ℕ),
      GoodChrom ks limit c → ga_mutation ks limit r c rnd = some c' →
      c'.weight ≤ limit) ∧
    (∀ (ks : List (ℕ × ℕ)) (limit : ℕ) (r : ℚ) (rnd : ℕ → ℕ → ℕ) (psize : ℕ)
      (pop res : List Chromosome), (∀ c ∈ pop, GoodChrom ks limit c) →
      evolve ks limit r rnd psize pop = some res → ∀ c ∈ res, c.weight ≤ limit) := by
  refine ⟨?_, ?_, ?_, ?_⟩
  · intro ks limit psize bits fuel pop h c hc
    rcases init_loop_mem fuel [] 0 h c hc with habs | ⟨genes, _, hw⟩
    · exact absurd habs (List.not_mem_nil c)
    · exact hw
  · intro ks limit p1 p2 c1 c2 h1 h2 h
    obtain ⟨d1, d2, _, _, _, _, hc1, hc2⟩ := crossover_spec h
    constructor
    · rw [hc1]
      by_cases hlt : limit < d1.weight
      · simpa [hlt] using h1
      · simpa [hlt] using not_lt.mp hlt
    · rw [hc2]
      by_cases hlt : limit < d2.weight
      · simpa [hlt] using h2
      · simpa [hlt] using not_lt.mp hlt
  · intro ks limit r c c' rnd g h
    exact (ga_mutation_preserves g h).1.2.2.1
  · intro ks limit r rnd psize pop res hpop h c hc
    unfold evolve at h
    exact (evolve_loop_preserves _ pop [] 0 h hpop (by simp) c hc).2.2.1

/-- C1 witness: crossover of the two feasible single-item parents over the
two-item catalog with weight limit 1 returns two feasible chromosomes. -/
theorem C1_feasibility_invariant_witness : p1w.weight ≤ 1 ∧ p2w.weight ≤ 1 :=
  C1_feasibility_invariant.2.1 ks2w 1 p1w p2w p1w p2w (by decide) (by decide) (by decide)

/-- C2: Fitness and weight consistency: a constructed chromosome's cached
fitness is the sum of the values of the selected items and its cached weight
the sum of their weights; every member of an initialized population, every
result of mutation (which recomputes both fields after each flip and revert),
and every member of an evolved population satisfies the same two equations
with respect to its current genes. -/
theorem C2_fitness_weight_consistency :
    (∀ (genes : List Bool) (ks : List (ℕ × ℕ)) (c : Chromosome),
      mkChromosome genes ks = some c →
      c.genes = genes ∧ c.fitness = sumValues genes ks ∧ c.weight = sumWeights genes ks) ∧
    (∀ (ks : List (ℕ × ℕ)) (limit psize : ℕ) (bits : ℕ → Bool) (fuel : ℕ)
      (pop : List Chromosome), initialize_population ks limit psize bits fuel = some pop →
      ∀ c ∈ pop, c.fitness = sumValues c.genes ks ∧ c.weight = sumWeights c.genes ks) ∧
    (∀ (ks : List (ℕ × ℕ)) (limit : ℕ) (r : ℚ) (c c' : Chromosome) (rnd : ℕ → ℕ),
      GoodChrom ks limit c → ga_mutation ks limit r c rnd = some c' →
      c'.fitness = sumValues c'.genes ks ∧ c'.weight = sumWeights c'.genes ks) ∧
    (∀ (ks : List (ℕ × ℕ)) (limit : ℕ) (r : ℚ) (rnd : ℕ → ℕ → ℕ) (psize : ℕ)
      (pop res : List Chromosome), (∀ c ∈ pop, GoodChrom ks limit c) →
      evolve ks limit r rnd psize pop = some res →
      ∀ c ∈ res, c.fitness = sumValues c.genes ks ∧ c.weight = sumWeights c.genes ks) := by
  refine ⟨?_, ?_, ?_, ?_⟩
  · intro genes ks c h
    obtain ⟨hg, hf, hw⟩ := mkChromosome_spec h
    exact ⟨hg, calc_fitness_eq_sum genes ks hf, total_weight_eq_sum genes ks hw⟩
  · intro ks limit psize bits fuel pop h c hc
    rcases init_loop_mem fuel [] 0 h c hc with habs | ⟨genes, hm, _⟩
    · exact absurd habs (List.not_mem_nil c)
    · obtain ⟨hg, hf, hw⟩ := mkChromosome_spec hm
      rw [← hg] at hf hw
      exact ⟨calc_fitness_eq_sum c.genes ks hf, total_weight_eq_sum c.genes ks hw⟩
  · intro ks limit r c c' rnd g h
    obtain ⟨⟨hf, hw, _, _⟩, _⟩ := ga_mutation_preserves g h
    exact ⟨calc_fitness_eq_sum c'.genes ks hf, total_weight_eq_sum c'.genes ks hw⟩
  · intro ks limit r rnd psize pop res hpop h c hc
    unfold evolve at h
    obtain ⟨hf, hw, _, _⟩ := evolve_loop_preserves _ pop [] 0 h hpop (by simp) c hc
    exact ⟨calc_fitness_eq_sum c.genes ks hf, total_weight_eq_sum c.genes ks hw⟩

/-- C2 witness: the chromosome constructed from genes selecting the first of
the two catalog items carries exactly the recomputed sums as fitness and
weight. -/
theorem C2_fitness_weight_consistency_witness :
    p1w.fitness = sumValues [true, false] ks2w ∧ p1w.weight = sumWeights [true, false] ks2w :=
  (C2_fitness_weight_consistency.1 [true, false] ks2w p1w (by decide)).2

/-- C4: Mutation flip count: for rate `r` with `0 ≤ r ≤ 1` and gene length
`N`, mutation draws exactly `⌊r * N⌋` distinct positions, all below `N`,
without replacement, and iterates the flip step over exactly that list;
when `r * N < 1` (so the count truncates to zero) mutation returns the
chromosome unchanged. -/
theorem C4_mutation_flip_count (ks : List (ℕ × ℕ)) (limit : ℕ) (r : ℚ) (c : Chromosome)
    (rnd : ℕ → ℕ) (hr0 : 0 ≤ r) (hr1 : r ≤ 1) :
    ∃ numbers, sample c.genes.length (⌊r * (c.genes.length : ℚ)⌋).toNat rnd = some numbers ∧
      numbers.length = (⌊r * (c.genes.length : ℚ)⌋).toNat ∧ numbers.Nodup ∧
      (∀ i ∈ numbers, i < c.genes.length) ∧
      ga_mutation ks limit r c rnd = numbers.foldlM (mutate_step ks limit) c ∧
      (r * (c.genes.length : ℚ) < 1 → ga_mutation ks limit r c rnd = some c) := by
  have hpy : pyint (r * (c.genes.length : ℚ)) = ⌊r * (c.genes.length : ℚ)⌋ :=
    if_pos (mul_nonneg hr0 (Nat.cast_nonneg _))
  have hnum : (⌊r * (c.genes.length : ℚ)⌋).toNat ≤ c.genes.length := by
    have := pyint_toNat_le hr0 hr1 c.genes.length
    rwa [hpy] at this
  obtain ⟨ns, hs, hlen, hnd, hmem⟩ := sample_spec rnd hnum
  refine ⟨ns, hs, hlen, hnd, hmem, ?_, ?_⟩
  · simp only [ga_mutation, hpy, Option.bind_eq_bind, hs, Option.some_bind]
  · intro hlt
    have h0 : (0 : ℤ) ≤ ⌊r * (c.genes.length : ℚ)⌋ :=
      Int.floor_nonneg.mpr (mul_nonneg hr0 (Nat.cast_nonneg _))
    have h1 : ⌊r * (c.genes.length : ℚ)⌋ < 1 := Int.floor_lt.mpr (by exact_mod_cast hlt)
    have hfl : (⌊r * (c.genes.length : ℚ)⌋).toNat = 0 := by omega
    have hnil : ns = [] := List.eq_nil_of_length_eq_zero (by rw [hlen, hfl])
    subst hnil
    simp only [ga_mutation, hpy, Option.bind_eq_bind, hs, Option.some_bind, List.foldlM_nil]
    rfl

/-- C4 witness: with rate 1/4 over two genes the flip count truncates to
zero and mutation is a no-op. -/
theorem C4_mutation_flip_count_witness :
    ga_mutation ks2w 5 (1 / 4) zc2 rnd0 = some zc2 := by
  obtain ⟨ns, _, _, _, _, _, hnoop⟩ :=
    C4_mutation_flip_count ks2w 5 (1 / 4) zc2 rnd0 (by norm_num) (by norm_num)
  exact hnoop (by norm_num [zc2])

/-- C7: Selection returns first a chromosome of maximal fitness of the
population, then a chromosome of maximal fitness among the remaining
members, removes exactly those two (first occurrences), and the leftover
population is shorter by exactly two. -/
theorem C7_selection_two_elite (pop : List Chromosome) (h : 2 ≤ pop.length) :
    ∃ p1 p2 rest, selection pop = some (p1, p2, rest) ∧ p1 ∈ pop ∧
      (∀ c ∈ pop, c.fitness ≤ p1.fitness) ∧ p2 ∈ pop.erase p1 ∧
      (∀ c ∈ pop.erase p1, c.fitness ≤ p2.fitness) ∧
      rest = (pop.erase p1).erase p2 ∧ rest.length + 2 = pop.length :=
  selection_spec h

/-- C7 witness: selection succeeds on a concrete two-member population. -/
theorem C7_selection_two_elite_witness : (selection [p1w, p2w]).isSome = true := by
  obtain ⟨p1, p2, rest, hs, _⟩ := C7_selection_two_elite [p1w, p2w] (by decide)
  rw [hs]
  rfl

/-- C8: Population size conservation: one evolve over a well-formed
population of size `n` produces a population of exactly `2 * (n / 2)`
members. -/
theorem C8_population_size_conservation (ks : List (ℕ × ℕ)) (limit : ℕ) (r : ℚ)
    (rnd : ℕ → ℕ → ℕ) (n : ℕ) (pop : List Chromosome)
    (hr0 : 0 ≤ r) (hr1 : r ≤ 1) (hpop : ∀ c ∈ pop, GoodChrom ks limit c)
    (hlen : pop.length = n) :
    (evolve ks limit r rnd n pop).map List.length = some (2 * (n / 2)) := by
  obtain ⟨res, hres, hreslen, _⟩ :=
    evolve_loop_spec hr0 hr1 (n / 2) pop [] 0 hpop (by simp) (by omega)
  unfold evolve
  rw [hres]
  simp only [Option.map_some', Option.some.injEq]
  simpa using hreslen

/-- C8 witness: evolving a concrete well-formed two-member population yields
a population of two members. -/
theorem C8_population_size_conservation_witness :
    (evolve ks2w 5 0 rndZ 2 [zc2, zc2]).map List.length = some 2 := by
  have h := C8_population_size_conservation ks2w 5 0 rndZ 2 [zc2, zc2]
    (by norm_num) (by norm_num) (by decide) (by decide)
  simpa using h

/-- C10: Evolve never exhausts the population mid-generation: over a
well-formed population of size `n ≥ 2`, every one of the `n / 2` selection
calls sees at least two remaining members, so `evolve` completes
successfully. -/
theorem C10_no_mid_generation_exhaustion (ks : List (ℕ × ℕ)) (limit : ℕ) (r : ℚ)
    (rnd : ℕ → ℕ → ℕ) (n : ℕ) (pop : List Chromosome)
    (hr0 : 0 ≤ r) (hr1 : r ≤ 1) (hpop : ∀ c ∈ pop, GoodChrom ks limit c)
    (hlen : pop.length = n) (_hn : 2 ≤ n) :
    (evolve ks limit r rnd n pop).isSome = true := by
  obtain ⟨res, hres, _, _⟩ :=
    evolve_loop_spec hr0 hr1 (n / 2) pop [] 0 hpop (by simp) (by omega)
  unfold evolve
  rw [hres]
  rfl

/-- C10 witness: evolve succeeds on a concrete well-formed population of
three members (odd size: the loop runs once and the third member is simply
never selected). -/
theorem C10_no_mid_generation_exhaustion_witness :
    (evolve ks2w 5 0 rndZ 3 [zc2, zc2, zc2]).isSome = true :=
  C10_no_mid_generation_exhaustion ks2w 5 0 rndZ 3 [zc2, zc2, zc2]
    (by norm_num) (by norm_num) (by decide) (by decide) (by decide)

lemma evolve_loop_zero (ks : List (ℕ × ℕ)) (limit : ℕ) (rnd : ℕ → ℕ → ℕ) :
    ∀ (k : ℕ) (pop acc : List Chromosome) (t : ℕ),
    evolve_loop ks limit 0 rnd k pop acc t = evolve0_loop ks limit k pop acc := by
  intro k
  induction k with
  | zero => intro pop acc t; rfl
  | succ k ih =>
    intro pop acc t
    cases hsel : selection pop with
    | none => simp [evolve_loop, evolve0_loop, hsel]
    | some s =>
      cases hcr : crossover ks limit s.1 s.2.1 with
      | none => simp [evolve_loop, evolve0_loop, hsel, hcr]
      | some cs =>
        simp only [evolve_loop, evolve0_loop, Option.bind_eq_bind, hsel, Option.some_bind,
          hcr, ga_mutation_zero, ih]

lemma calc_fitness_replicate_false :
    ∀ (n : ℕ) (ks : List (ℕ × ℕ)), calc_fitness (List.replicate n false) ks = some 0 := by
  intro n
  induction n with
  | zero => intro ks; rfl
  | succ n ih =>
    intro ks
    cases ks with
    | nil => simpa [List.replicate_succ, calc_fitness] using ih []
    | cons p ks => simp [List.replicate_succ, calc_fitness, ih ks]

lemma total_weight_replicate_false :
    ∀ (n : ℕ) (ks : List (ℕ × ℕ)), total_weight (List.replicate n false) ks = some 0 := by
  intro n
  induction n with
  | zero => intro ks; rfl
  | succ n ih =>
    intro ks
    cases ks with
    | nil => simpa [List.replicate_succ, total_weight] using ih []
    | cons p ks => simp [List.replicate_succ, total_weight, ih ks]

/-- C6: the initializer hardcodes gene length 10 (`range(10)`): over a
four-item catalog the initial population's chromosome has gene vector length
10, not the catalog's item count 4 — evidencing the divergence between the
code and the specified behavior of drawing vectors of the catalog's length. -/
theorem C6_initialization_hardcoded_length :
    (initialize_population ksC6 0 1 bits0 1).map (fun p => p.map fun c => c.genes.length) =
      some [10] ∧ ksC6.length = 4 := by
  constructor
  · decide
  · decide

/-- C3 counterexample: for four-gene parents the claimed split point
`floor(N/2) = 2` is wrong — the code splits at the hardcoded index 5, so
crossing an all-zero parent with an all-one parent returns the all-zero
genes unchanged instead of the claimed `[0,0,1,1]` recombination. -/
theorem C3_counterexample :
    crossover ksC3 0 pA3 pB3 =
      some (⟨[false, false, false, false], 0, 0⟩, ⟨[true, true, true, true], 4, 0⟩) ∧
    ¬ ([false, false, false, false] =
        pA3.genes.take (pA3.genes.length / 2) ++ pB3.genes.drop (pA3.genes.length / 2)) := by
  constructor
  · decide
  · decide

/-- C3 (amended): crossover recombines at the hardcoded slice index 5 (which
equals `floor(N/2)` only for the program's gene length `N = 10`): child 1 is
parent 1's first five genes followed by parent 2's genes from index 5 on,
child 2 the symmetric recombination; a child whose weight exceeds the limit
is replaced by the corresponding parent, so crossover of feasible parents
never yields an infeasible chromosome. -/
theorem C3_crossover_hardcoded_split (ks : List (ℕ × ℕ)) (limit : ℕ)
    (p1 p2 c1 c2 : Chromosome) (h : crossover ks limit p1 p2 = some (c1, c2)) :
    ∃ d1 d2, mkChromosome (p1.genes.take 5 ++ p2.genes.drop 5) ks = some d1 ∧
      mkChromosome (p2.genes.take 5 ++ p1.genes.drop 5) ks = some d2 ∧
      d1.genes = p1.genes.take 5 ++ p2.genes.drop 5 ∧
      d2.genes = p2.genes.take 5 ++ p1.genes.drop 5 ∧
      c1 = (if limit < d1.weight then p1 else d1) ∧
      c2 = (if limit < d2.weight then p2 else d2) ∧
      (p1.weight ≤ limit → c1.weight ≤ limit) ∧
      (p2.weight ≤ limit → c2.weight ≤ limit) := by
  obtain ⟨d1, d2, h1, h2, hg1, hg2, hc1, hc2⟩ := crossover_spec h
  refine ⟨d1, d2, h1, h2, hg1, hg2, hc1, hc2, ?_, ?_⟩
  · intro hp
    rw [hc1]
    by_cases hlt : limit < d1.weight
    · simpa [hlt] using hp
    · simpa [hlt] using not_lt.mp hlt
  · intro hp
    rw [hc2]
    by_cases hlt : limit < d2.weight
    · simpa [hlt] using hp
    · simpa [hlt] using not_lt.mp hlt

/-- C3 witness: over `ksX3` with limit 3, the first recombined child (items
0 and 9, weight 4) is infeasible, crossover falls back to parent 1, and both
returned chromosomes are within the limit. -/
theorem C3_crossover_hardcoded_split_witness : pX3.weight ≤ 3 ∧ zc10.weight ≤ 3 := by
  obtain ⟨d1, d2, _, _, _, _, _, _, hf1, hf2⟩ :=
    C3_crossover_hardcoded_split ksX3 3 pX3 pY3 pX3 zc10 (by decide)
  exact ⟨hf1 (by decide), hf2 (by decide)⟩

/-- C9 counterexample: no configuration validation exists.  A chromosome
whose gene vector is shorter than the catalog is constructed without error,
and the engine accepts `population_size = 0` and `mutation_rate = 5`
(far outside [0,1]) at construction time, returning an empty population
instead of failing fast. -/
theorem C9_counterexample :
    (mkChromosome [false] ks2w).isSome = true ∧ ([false] : List Bool).length ≠ ks2w.length ∧
    (GeneticAlgorithm_init 0 ks2w 0 5 bits0 1).isSome = true := by
  refine ⟨by decide, by decide, ?_⟩
  have h : initialize_population ks2w 0 0 bits0 1 = some [] := by decide
  simp [GeneticAlgorithm_init, h]

/-- C9 (amended): construction performs no validation at all: any gene
vector that does not outrun the catalog is accepted regardless of whether
its length matches the catalog's item count; the engine stores any
`mutation_rate` and accepts `population_size ≤ 0`, returning the empty
population; and an all-zero gene vector of any length is accepted over any
catalog (a mismatch only errors later, when a set bit indexes a missing
item). -/
theorem C9_no_configuration_validation :
    (∀ (genes : List Bool) (ks : List (ℕ × ℕ)), genes.length ≤ ks.length →
      (mkChromosome genes ks).isSome = true) ∧
    (∀ (limit : ℕ) (ks : List (ℕ × ℕ)) (r : ℚ) (bits : ℕ → Bool) (fuel : ℕ),
      GeneticAlgorithm_init limit ks 0 r bits fuel = some ⟨limit, ks, 0, r, []⟩) ∧
    (∀ (n : ℕ) (ks : List (ℕ × ℕ)),
      (mkChromosome (List.replicate n false) ks).isSome = true) := by
  refine ⟨?_, ?_, ?_⟩
  · intro genes ks h
    rw [mkChromosome_of_le h]
    rfl
  · intro limit ks r bits fuel
    have h : initialize_population ks limit 0 bits fuel = some [] := by
      cases fuel <;> simp [initialize_population, init_loop]
    simp [GeneticAlgorithm_init, h]
  · intro n ks
    simp [mkChromosome, calc_fitness_replicate_false n ks, total_weight_replicate_false n ks]

/-- C9 witness: a one-gene chromosome over the two-item catalog, an engine
with population size 0 and rate 5, and a three-gene all-zero chromosome over
the two-item catalog are all constructed without error. -/
theorem C9_no_configuration_validation_witness :
    (mkChromosome [false] ks2w).isSome = true ∧
    (GeneticAlgorithm_init 7 ks2w 0 5 bits0 2).isSome = true ∧
    (mkChromosome (List.replicate 3 false) ks2w).isSome = true := by
  refine ⟨C9_no_configuration_validation.1 [false] ks2w (by decide), ?_,
    C9_no_configuration_validation.2.2 3 ks2w⟩
  rw [C9_no_configuration_validation.2.1 7 ks2w 5 bits0 2]
  rfl

/-- C5 counterexample: with mutation rate 0, one evolve over the population
`[bigC5, zc10, zc10, zc10]` (best fitness 120) produces a population whose
best fitness is 60: both crossover children of the elite pair are feasible,
so neither parent survives and the best-found value is lost — best fitness
is not monotone across evolve calls. -/
theorem C5_counterexample :
    (evolve ksC5 0 0 rndZ 4 [bigC5, zc10, zc10, zc10]).bind
        (fun res => (pymax res).map fun c => c.fitness) = some 60 ∧
    (pymax [bigC5, zc10, zc10, zc10]).map (fun c => c.fitness) = some 120 := by
  constructor
  · rw [show evolve ksC5 0 0 rndZ 4 [bigC5, zc10, zc10, zc10] =
        evolve0_loop ksC5 0 2 [bigC5, zc10, zc10, zc10] [] from
      evolve_loop_zero ksC5 0 rndZ 2 [bigC5, zc10, zc10, zc10] [] 0]
    decide
  · decide

/-- C5 (amended): with mutation rate 0, best fitness is non-decreasing
across an evolve call whenever the first recombined child of the elite pair
exceeds the capacity: the fallback then returns the fittest chromosome
unchanged into the next population.  (In general crossover falls back to a
parent only when the corresponding child is infeasible, so when both
children are feasible the best-found value can be lost, as the
counterexample shows.) -/
theorem C5_elitism_fallback_monotonicity (ks : List (ℕ × ℕ)) (limit : ℕ)
    (rnd : ℕ → ℕ → ℕ) (n : ℕ) (pop res : List Chromosome)
    (p1 p2 : Chromosome) (rest : List Chromosome) (d1 : Chromosome)
    (hn : 2 ≤ n)
    (hev : evolve ks limit 0 rnd n pop = some res)
    (hsel : selection pop = some (p1, p2, rest))
    (hd1 : mkChromosome (p1.genes.take 5 ++ p2.genes.drop 5) ks = some d1)
    (hinf : limit < d1.weight) :
    ∃ b b', pymax pop = some b ∧ pymax res = some b' ∧ b.fitness ≤ b'.fitness := by
  obtain ⟨hm1, _, _⟩ := selection_eq hsel
  unfold evolve at hev
  obtain ⟨k, hk⟩ : ∃ k, n / 2 = k + 1 := ⟨n / 2 - 1, by omega⟩
  rw [hk] at hev
  simp only [evolve_loop, Option.bind_eq_bind, hsel, Option.some_bind] at hev
  cases hcr : crossover ks limit p1 p2 with
  | none =>
    rw [hcr] at hev
    simp at hev
  | some cs =>
    rw [hcr] at hev
    simp only [Option.some_bind, ga_mutation_zero] at hev
    obtain ⟨d1', d2', h1', h2', _, _, hc1, hc2⟩ :=
      crossover_spec (show crossover ks limit p1 p2 = some (cs.1, cs.2) from hcr)
    have hd : d1' = d1 := Option.some.inj (h1'.symm.trans hd1)
    subst hd
    have hc1p : cs.1 = p1 := by rw [hc1, if_pos hinf]
    have hmem : cs.1 ∈ res :=
      evolve_loop_acc_sub k rest ([] ++ [cs.1, cs.2]) 2 hev cs.1 (by simp)
    obtain ⟨b', hb', _, hmax'⟩ := pymax_spec (List.ne_nil_of_mem hmem)
    refine ⟨p1, b', hm1, hb', ?_⟩
    rw [← hc1p]
    exact hmax' cs.1 hmem

/-- C5 witness: over `ksW5` with limit 6 the elite pair's first child
(items 0 and 9, weight 12) is infeasible, so the best chromosome `aW5`
survives the zero-rate evolve and the best fitness stays 10. -/
theorem C5_elitism_fallback_monotonicity_witness :
    (pymax [aW5, zc10, zc10, zc10]).map (fun c => c.fitness) = some 10 := by
  have hev : evolve ksW5 6 0 rndZ 4 [aW5, bW5, zc10, zc10] =
      some [aW5, zc10, zc10, zc10] :=
    (evolve_loop_zero ksW5 6 rndZ 2 [aW5, bW5, zc10, zc10] [] 0).trans (by decide)
  obtain ⟨b, b', hb, hb', hle⟩ :=
    C5_elitism_fallback_monotonicity ksW5 6 rndZ 4 [aW5, bW5, zc10, zc10]
      [aW5, zc10, zc10, zc10] aW5 bW5 [zc10, zc10] dW5
      (by norm_num) hev (by decide) (by decide) (by decide)
  have he : pymax [aW5, zc10, zc10, zc10] = some aW5 := by decide
  have hba : b' = aW5 := Option.some.inj (hb'.symm.trans he)
  rw [hb', hba]
  rfl
